import Mathlib

/-!
Verification of the `ont_n50` tool (`src/ont_n50.py`): a shallow embedding
of its N50 calculator, per-file aggregation and per-file error handling,
together with proofs of the specified properties.

Read lengths are modelled as natural numbers (Python sequence lengths are
non-negative integers). Python's true division `total_length / 2` is
modelled as exact division in the rationals, matching the specification's
real-number-division reading.
-/

namespace OntN50

/-- The running-sum walk inside `calculate_n50` (`src/ont_n50.py` lines
50-56): `current_sum` accumulates the lengths; the first length whose
accumulated sum reaches or exceeds `total_length / 2` is returned, and `0`
is returned if the walk falls off the end of the list. -/
def n50_loop (total_length : Nat) : List Nat → Nat → Nat
  | [], _ => 0
  | len :: rest, current_sum =>
    if (total_length : ℚ) / 2 ≤ ((current_sum + len : Nat) : ℚ) then len
    else n50_loop total_length rest (current_sum + len)

/-- Function `calculate_n50` (`src/ont_n50.py` lines 38-56): return 0 on the empty
list, otherwise sort descending, total the lengths and walk the sorted list
with `n50_loop`. -/
def calculate_n50 (read_lengths : List Nat) : Nat :=
  if read_lengths.isEmpty then 0
  else
    let sorted_lengths := read_lengths.insertionSort (· ≥ ·)
    let total_length := sorted_lengths.sum
    n50_loop total_length sorted_lengths 0

/-- Python's `max(l)` for a non-empty list `l`, with the `0` sentinel the
caller substitutes for an empty list (`src/ont_n50.py` line 105). -/
def pyMax : List Nat → Nat
  | [] => 0
  | a :: t => t.foldl max a

/-- Python's `min(l)` for a non-empty list `l`, with the `0` sentinel the
caller substitutes for an empty list (`src/ont_n50.py` line 106). -/
def pyMin : List Nat → Nat
  | [] => 0
  | a :: t => t.foldl min a

/-- Characters of the current path component; restarts at every slash.
The first argument is the remaining input, the second the (reversed)
component read so far. -/
def basenameChars : List Char → List Char → List Char
  | [], acc => acc.reverse
  | c :: cs, acc =>
    if c = '/' then basenameChars cs []
    else basenameChars cs (c :: acc)

/-- Helper modelling `os.path.basename` for slash-separated paths, as used
at `src/ont_n50.py` line 109: the characters after the last slash. -/
def basename (p : String) : String :=
  String.mk (basenameChars p.data [])

/-- One summary row of the report, as built in `main`
(`src/ont_n50.py` lines 108-116). -/
structure FileSummary where
  file : String
  n50 : Nat
  total_reads : Nat
  total_bases : Nat
  mean_length : ℚ
  max_length : Nat
  min_length : Nat
  deriving Repr, DecidableEq

/-- The per-file aggregation step of `main` (`src/ont_n50.py` lines
100-116): a non-empty read-length series yields a `FileSummary`; an empty
one yields nothing (the caller prints a diagnostic instead). -/
def processLengths (file : String) (read_lengths : List Nat) : Option FileSummary :=
  if read_lengths.isEmpty then none
  else
    some
      { file := basename file
        n50 := calculate_n50 read_lengths
        total_reads := read_lengths.length
        total_bases := read_lengths.sum
        mean_length :=
          if 0 < read_lengths.length then
            (read_lengths.sum : ℚ) / (read_lengths.length : ℚ)
          else 0
        max_length := if read_lengths.isEmpty then 0 else pyMax read_lengths
        min_length := if read_lengths.isEmpty then 0 else pyMin read_lengths }

/-- The outcome of `process_fastq` on one file: either the list of read
lengths, or a raised exception carrying a message. -/
abbrev FileOutcome := String × Except String (List Nat)

/-- The per-file loop of `main` (`src/ont_n50.py` lines 94-120): walk the
files in order, collect a `FileSummary` for each successfully processed
non-empty file, and collect the lines printed to standard output.  An
exception from `process_fastq` is caught at that file and logged; the loop
then continues with the remaining files. -/
def runFiles : List FileOutcome → List FileSummary × List String
  | [] => ([], [])
  | (file, outcome) :: rest =>
    let r := runFiles rest
    match outcome with
    | Except.ok read_lengths =>
      match processLengths file read_lengths with
      | some fs => (fs :: r.1, ("Processing " ++ file ++ "...") :: r.2)
      | none =>
        (r.1, ("Processing " ++ file ++ "...") ::
          ("No reads found in " ++ file) :: r.2)
    | Except.error e =>
      (r.1, ("Processing " ++ file ++ "...") ::
        ("Error processing " ++ file ++ ": " ++ e) :: r.2)

/-- One CSV data row, in the column order fixed at
`src/ont_n50.py` line 125. -/
def csvRow (fs : FileSummary) : List String :=
  [fs.file, toString fs.n50, toString fs.total_reads, toString fs.total_bases,
    toString fs.mean_length, toString fs.max_length, toString fs.min_length]

/-- The CSV table written by `main` (`src/ont_n50.py` lines 122-130): a
header row followed by one data row per collected `FileSummary`. -/
def csvTable (results : List FileSummary) : List (List String) :=
  ["file", "n50", "total_reads", "total_bases", "mean_length",
    "max_length", "min_length"] :: results.map csvRow

/-- Python's `str.lower`, one character at a time. -/
def lowerStr (s : String) : String :=
  String.mk (s.data.map Char.toLower)

/-- Python's `str.endswith` for a single candidate ending. -/
def strEndsWith (s ending : String) : Bool :=
  List.isSuffixOf ending.data s.data

/-- Function `is_fastq_file` (`src/ont_n50.py` lines 22-25): a filename is
a FASTQ file when its lower-cased form ends with one of the recognised
extensions. -/
def is_fastq_file (filename : String) : Bool :=
  [".fastq", ".fq", ".fastq.gz", ".fq.gz"].any
    (fun ext => strEndsWith (lowerStr filename) ext)

/-- Function `get_fastq_files` (`src/ont_n50.py` lines 28-35), with the recursive
directory walk abstracted to the list of file names it visits: keep exactly
the names that `is_fastq_file` accepts. -/
def get_fastq_files (walked_files : List String) : List String :=
  walked_files.filter (fun file => is_fastq_file file)

/-- The two mutually exclusive input modes of the command line
(`src/ont_n50.py` lines 14-16). -/
inductive InputMode where
  | file (path : String)
  | directory (walked_files : List String)

/-- Candidate-file selection in `main` (`src/ont_n50.py` lines 83-87):
a `--file` path is taken as is; a `--directory` is walked and filtered
through `is_fastq_file`. -/
def files_to_process : InputMode → List String
  | InputMode.file path => [path]
  | InputMode.directory walked_files => get_fastq_files walked_files

/-- Modelled from the spec (§4.1): sort the lengths in descending order,
total them, and return the length value at the FIRST position at which the
cumulative sum of the sorted prefix reaches or exceeds the exact rational
threshold `total / 2`; return `0` for the empty series, or if no position
qualifies. -/
def n50_spec (read_lengths : List Nat) : Nat :=
  if read_lengths.isEmpty then 0
  else
    let s := read_lengths.insertionSort (· ≥ ·)
    let total := s.sum
    match (List.range s.length).find?
        (fun i => decide ((total : ℚ) / 2 ≤ ((s.take (i + 1)).sum : ℚ))) with
    | some i => s.getD i 0
    | none => 0

/-! ## Helper lemmas -/

/-- The rational threshold test is the integer test `total ≤ 2 * c`. -/
lemma half_le_iff (t c : Nat) : ((t : ℚ) / 2 ≤ (c : ℚ)) ↔ t ≤ 2 * c := by
  rw [div_le_iff₀ (by norm_num : (0:ℚ) < 2)]
  rw [show ((c:ℚ) * 2) = ((2 * c : Nat) : ℚ) by push_cast; ring]
  exact Nat.cast_le

/-- The running-sum walk returns the element at the first index whose
accumulated prefix sum (on top of the incoming `current_sum`) crosses the
half-total threshold. -/
lemma n50_loop_eq_find (total : Nat) (s : List Nat) : ∀ current_sum : Nat,
    n50_loop total s current_sum =
      match (List.range s.length).find?
          (fun i => decide ((total : ℚ) / 2 ≤
            ((current_sum + (s.take (i + 1)).sum : Nat) : ℚ))) with
      | some i => s.getD i 0
      | none => 0 := by
  induction s with
  | nil => intro c; simp [n50_loop]
  | cons a t ih =>
    intro c
    have hcons : n50_loop total (a :: t) c =
        if (total : ℚ) / 2 ≤ ((c + a : Nat) : ℚ) then a
        else n50_loop total t (c + a) := rfl
    rw [List.length_cons, List.range_succ_eq_map]
    by_cases hc : (total : ℚ) / 2 ≤ ((c + a : Nat) : ℚ)
    · rw [List.find?_cons_of_pos]
      · rw [hcons, if_pos hc]
        simp
      · simpa using hc
    · rw [List.find?_cons_of_neg]
      · rw [List.find?_map]
        have hfun :
            ((fun i => decide ((total : ℚ) / 2 ≤
                ((c + ((a :: t).take (i + 1)).sum : Nat) : ℚ))) ∘ Nat.succ) =
              fun i => decide ((total : ℚ) / 2 ≤
                ((c + a + (t.take (i + 1)).sum : Nat) : ℚ)) := by
          funext i
          simp [Function.comp, List.take_succ_cons, Nat.add_assoc]
        rw [hfun, hcons, if_neg hc, ih (c + a)]
        cases hfind : (List.range t.length).find?
            (fun i => decide ((total : ℚ) / 2 ≤
              ((c + a + (t.take (i + 1)).sum : Nat) : ℚ))) with
        | none => simp
        | some j => simp
      · simpa using hc

/-- Nonempty case of `calculate_n50`, phrased as a first-crossing search
over the descending-sorted list. -/
lemma calculate_n50_eq_find (l : List Nat) (h : ¬ l.isEmpty) :
    calculate_n50 l =
      match (List.range (l.insertionSort (· ≥ ·)).length).find?
          (fun i => decide (((l.insertionSort (· ≥ ·)).sum : ℚ) / 2 ≤
            (((l.insertionSort (· ≥ ·)).take (i + 1)).sum : ℚ))) with
      | some i => (l.insertionSort (· ≥ ·)).getD i 0
      | none => 0 := by
  rw [calculate_n50, if_neg h]
  rw [n50_loop_eq_find]
  simp

/-- Integer-threshold twin of `n50_loop`, used to evaluate the function on
concrete inputs (rational arithmetic does not reduce in the kernel). -/
def n50_loopN (total : Nat) : List Nat → Nat → Nat
  | [], _ => 0
  | len :: rest, current_sum =>
    if total ≤ 2 * (current_sum + len) then len
    else n50_loopN total rest (current_sum + len)

lemma n50_loop_eq_loopN (total : Nat) (s : List Nat) : ∀ current_sum : Nat,
    n50_loop total s current_sum = n50_loopN total s current_sum := by
  induction s with
  | nil => intro c; rfl
  | cons a t ih =>
    intro c
    have h1 : n50_loop total (a :: t) c =
        if (total : ℚ) / 2 ≤ ((c + a : Nat) : ℚ) then a
        else n50_loop total t (c + a) := rfl
    have h2 : n50_loopN total (a :: t) c =
        if total ≤ 2 * (c + a) then a
        else n50_loopN total t (c + a) := rfl
    rw [h1, h2, ih (c + a)]
    by_cases h : total ≤ 2 * (c + a)
    · rw [if_pos h, if_pos ((half_le_iff total (c + a)).2 h)]
    · rw [if_neg h, if_neg (fun hq => h ((half_le_iff total (c + a)).1 hq))]

/-- Executable form of `calculate_n50`: same sort and total, with the
threshold test moved to the integers. -/
lemma calculate_n50_eval (l : List Nat) :
    calculate_n50 l =
      if l.isEmpty then 0
      else n50_loopN (l.insertionSort (· ≥ ·)).sum (l.insertionSort (· ≥ ·)) 0 := by
  by_cases h : l.isEmpty
  · cases l with
    | nil => rfl
    | cons a t => simp at h
  · rw [calculate_n50, if_neg h, if_neg h, n50_loop_eq_loopN]

/-- Two lists that are permutations of one another have the same
descending sort. -/
lemma insertionSort_eq_of_perm {l₁ l₂ : List Nat} (h : List.Perm l₁ l₂) :
    l₁.insertionSort (· ≥ ·) = l₂.insertionSort (· ≥ ·) :=
  List.eq_of_perm_of_sorted
    ((List.perm_insertionSort _ l₁).trans (h.trans (List.perm_insertionSort _ l₂).symm))
    (List.sorted_insertionSort _ l₁) (List.sorted_insertionSort _ l₂)

/-- For a non-empty list, some prefix of the descending sort crosses the
half-total threshold, and `calculate_n50` returns the entry at the first
such position. -/
lemma calculate_n50_crossing (l : List Nat) (h : ¬ l.isEmpty) :
    ∃ i, i < (l.insertionSort (· ≥ ·)).length ∧
      (((l.insertionSort (· ≥ ·)).sum : ℚ) / 2 ≤
        (((l.insertionSort (· ≥ ·)).take (i + 1)).sum : ℚ)) ∧
      calculate_n50 l = (l.insertionSort (· ≥ ·)).getD i 0 := by
  set s := l.insertionSort (· ≥ ·) with hs
  have hlen : 0 < s.length := by
    have := (List.perm_insertionSort (· ≥ ·) l).length_eq
    rw [← hs] at this
    cases l with
    | nil => simp at h
    | cons a t => rw [this]; simp
  have hlast : ((s.sum : ℚ) / 2 ≤ ((s.take (s.length - 1 + 1)).sum : ℚ)) := by
    have htake : s.take (s.length - 1 + 1) = s := by
      rw [Nat.sub_add_cancel hlen]
      exact List.take_length s
    rw [htake, half_le_iff]
    omega
  have hmem : (s.length - 1) ∈ List.range s.length := by
    rw [List.mem_range]
    omega
  have hsome : ((List.range s.length).find?
      (fun i => decide ((s.sum : ℚ) / 2 ≤ ((s.take (i + 1)).sum : ℚ)))).isSome := by
    rw [List.find?_isSome]
    exact ⟨s.length - 1, hmem, by simpa using hlast⟩
  obtain ⟨j, hj⟩ := Option.isSome_iff_exists.1 hsome
  refine ⟨j, ?_, ?_, ?_⟩
  · have := List.mem_of_find?_eq_some hj
    rwa [List.mem_range] at this
  · have := List.find?_some hj
    simpa using this
  · rw [calculate_n50_eq_find l h, ← hs, hj]

/-- Every element of the list the fold starts from is bounded by the fold
of `max`. -/
lemma le_foldl_max (t : List Nat) (a : Nat) : a ≤ t.foldl max a := by
  induction t generalizing a with
  | nil => simp
  | cons b t ih =>
    rw [List.foldl_cons]
    exact le_trans (le_max_left a b) (ih (max a b))

lemma mem_le_foldl_max (t : List Nat) (a : Nat) {x : Nat} (hx : x ∈ t) :
    x ≤ t.foldl max a := by
  induction t generalizing a with
  | nil => cases hx
  | cons b t ih =>
    rw [List.foldl_cons]
    rcases List.mem_cons.1 hx with rfl | hx
    · exact le_trans (le_max_right a x) (le_foldl_max t (max a x))
    · exact ih (max a b) hx

lemma foldl_max_mem (t : List Nat) (a : Nat) :
    t.foldl max a = a ∨ t.foldl max a ∈ t := by
  induction t generalizing a with
  | nil => left; rfl
  | cons b t ih =>
    rw [List.foldl_cons]
    rcases ih (max a b) with h | h
    · rcases max_choice a b with hm | hm
      · left; rw [h, hm]
      · right; rw [h, hm]; exact List.mem_cons_self b t
    · right; exact List.mem_cons_of_mem b h

lemma foldl_min_le (t : List Nat) (a : Nat) : t.foldl min a ≤ a := by
  induction t generalizing a with
  | nil => simp
  | cons b t ih =>
    rw [List.foldl_cons]
    exact le_trans (ih (min a b)) (min_le_left a b)

lemma foldl_min_le_mem (t : List Nat) (a : Nat) {x : Nat} (hx : x ∈ t) :
    t.foldl min a ≤ x := by
  induction t generalizing a with
  | nil => cases hx
  | cons b t ih =>
    rw [List.foldl_cons]
    rcases List.mem_cons.1 hx with rfl | hx
    · exact le_trans (foldl_min_le t (min a x)) (min_le_right a x)
    · exact ih (min a b) hx

lemma foldl_min_mem (t : List Nat) (a : Nat) :
    t.foldl min a = a ∨ t.foldl min a ∈ t := by
  induction t generalizing a with
  | nil => left; rfl
  | cons b t ih =>
    rw [List.foldl_cons]
    rcases ih (min a b) with h | h
    · rcases min_choice a b with hm | hm
      · left; rw [h, hm]
      · right; rw [h, hm]; exact List.mem_cons_self b t
    · right; exact List.mem_cons_of_mem b h

/-- Python's `max` over a non-empty list is an element of the list. -/
lemma pyMax_mem {l : List Nat} (h : l ≠ []) : pyMax l ∈ l := by
  cases l with
  | nil => exact absurd rfl h
  | cons a t =>
    rw [pyMax]
    rcases foldl_max_mem t a with h1 | h1
    · rw [h1]; exact List.mem_cons_self a t
    · exact List.mem_cons_of_mem a h1

lemma le_pyMax_of_mem {l : List Nat} {x : Nat} (hx : x ∈ l) : x ≤ pyMax l := by
  cases l with
  | nil => cases hx
  | cons a t =>
    rw [pyMax]
    rcases List.mem_cons.1 hx with rfl | hx
    · exact le_foldl_max t x
    · exact mem_le_foldl_max t a hx

/-- Python's `min` over a non-empty list is an element of the list. -/
lemma pyMin_mem {l : List Nat} (h : l ≠ []) : pyMin l ∈ l := by
  cases l with
  | nil => exact absurd rfl h
  | cons a t =>
    rw [pyMin]
    rcases foldl_min_mem t a with h1 | h1
    · rw [h1]; exact List.mem_cons_self a t
    · exact List.mem_cons_of_mem a h1

lemma pyMin_le_of_mem {l : List Nat} {x : Nat} (hx : x ∈ l) : pyMin l ≤ x := by
  cases l with
  | nil => cases hx
  | cons a t =>
    rw [pyMin]
    rcases List.mem_cons.1 hx with rfl | hx
    · exact foldl_min_le t x
    · exact foldl_min_le_mem t a hx

/-- Processing a concatenation of file batches concatenates both the
collected summaries and the log, batch by batch. -/
lemma runFiles_append (xs ys : List FileOutcome) :
    runFiles (xs ++ ys) =
      ((runFiles xs).1 ++ (runFiles ys).1, (runFiles xs).2 ++ (runFiles ys).2) := by
  induction xs with
  | nil => simp [runFiles]
  | cons x xs ih =>
    obtain ⟨file, outcome⟩ := x
    cases outcome with
    | ok read_lengths =>
      cases hp : processLengths file read_lengths with
      | some fs => simp [runFiles, ih, hp]
      | none => simp [runFiles, ih, hp]
    | error e => simp [runFiles, ih]

/-! ## Claim theorems -/

/-- C1: `calculate_n50` returns 0 on the empty list, and on every list of
non-negative integers it returns the length value at the first position of
the descending-sorted list at which the running cumulative sum reaches or
exceeds the exact rational threshold `total / 2`, as captured by the
spec-side definition `n50_spec`. -/
theorem calculate_n50_meets_spec :
    calculate_n50 [] = 0 ∧
      ∀ read_lengths : List Nat, calculate_n50 read_lengths = n50_spec read_lengths := by
  refine ⟨rfl, ?_⟩
  intro l
  by_cases h : l.isEmpty
  · cases l with
    | nil => rfl
    | cons a t => simp at h
  · rw [calculate_n50_eq_find l h, n50_spec, if_neg h]

/-- C2: for every non-empty read-length series the aggregation step yields
a `FileSummary` whose `total_reads` is the element count, `total_bases`
the element sum, `mean_length` their exact quotient, and `max_length` /
`min_length` the greatest and least element. -/
theorem aggregator_correct (file : String) (l : List Nat) (h : l ≠ []) :
    ∃ fs, processLengths file l = some fs ∧
      fs.total_reads = l.length ∧
      fs.total_bases = l.sum ∧
      fs.mean_length = (l.sum : ℚ) / (l.length : ℚ) ∧
      fs.max_length ∈ l ∧ (∀ x ∈ l, x ≤ fs.max_length) ∧
      fs.min_length ∈ l ∧ (∀ x ∈ l, fs.min_length ≤ x) := by
  have he : l.isEmpty = false := by
    cases l with
    | nil => exact absurd rfl h
    | cons a t => rfl
  have hlen : 0 < l.length := List.length_pos.2 h
  refine ⟨{ file := basename file, n50 := calculate_n50 l, total_reads := l.length,
            total_bases := l.sum, mean_length := (l.sum : ℚ) / (l.length : ℚ),
            max_length := pyMax l, min_length := pyMin l },
    ?_, rfl, rfl, rfl, pyMax_mem h, ?_, pyMin_mem h, ?_⟩
  · simp [processLengths, he, hlen]
  · intro x hx
    exact le_pyMax_of_mem hx
  · intro x hx
    exact pyMin_le_of_mem hx

/-- Witness for C2 at the series `[2, 4, 6]` of the spec: mean 4, maximum
6, minimum 2, 12 bases over 3 reads. -/
theorem aggregator_correct_witness :
    (∃ fs, processLengths "sample.fastq" [2, 4, 6] = some fs ∧
      fs.total_reads = ([2, 4, 6] : List Nat).length ∧
      fs.total_bases = ([2, 4, 6] : List Nat).sum ∧
      fs.mean_length = (([2, 4, 6] : List Nat).sum : ℚ) / (([2, 4, 6] : List Nat).length : ℚ) ∧
      fs.max_length ∈ ([2, 4, 6] : List Nat) ∧ (∀ x ∈ ([2, 4, 6] : List Nat), x ≤ fs.max_length) ∧
      fs.min_length ∈ ([2, 4, 6] : List Nat) ∧ (∀ x ∈ ([2, 4, 6] : List Nat), fs.min_length ≤ x)) ∧
    ((([2, 4, 6] : List Nat).sum : ℚ) / (([2, 4, 6] : List Nat).length : ℚ) = 4 ∧
      pyMax [2, 4, 6] = 6 ∧ pyMin [2, 4, 6] = 2 ∧
      ([2, 4, 6] : List Nat).sum = 12 ∧ ([2, 4, 6] : List Nat).length = 3) :=
  ⟨aggregator_correct "sample.fastq" [2, 4, 6] (by decide),
    by norm_num [pyMax, pyMin], by decide, by decide, by decide, by decide⟩

/-- C5: the N50 depends only on the multiset of lengths: any permutation
of a non-empty series has the same `calculate_n50` value. -/
theorem n50_order_independent (l₁ l₂ : List Nat) (h : l₁ ≠ [])
    (hp : List.Perm l₁ l₂) : calculate_n50 l₁ = calculate_n50 l₂ := by
  have h₂ : l₂ ≠ [] := by
    intro hnil
    subst hnil
    exact h hp.eq_nil
  have e₁ : l₁.isEmpty = false := by
    cases l₁ with
    | nil => exact absurd rfl h
    | cons a t => rfl
  have e₂ : l₂.isEmpty = false := by
    cases l₂ with
    | nil => exact absurd rfl h₂
    | cons a t => rfl
  simp only [calculate_n50, e₁, e₂, insertionSort_eq_of_perm hp,
    Bool.false_eq_true, if_false]

/-- Witness for C5: a concrete permuted pair with equal N50. -/
theorem n50_order_independent_witness :
    ([1, 3, 2, 10] : List Nat) ≠ [] ∧
      List.Perm ([1, 3, 2, 10] : List Nat) [10, 2, 3, 1] ∧
      calculate_n50 [1, 3, 2, 10] = calculate_n50 [10, 2, 3, 1] :=
  ⟨by decide, by decide,
    n50_order_independent [1, 3, 2, 10] [10, 2, 3, 1] (by decide) (by decide)⟩

/-- C7: the spec's worked example: the series `[1, ..., 10]` totals 55,
sorts descending to `[10, ..., 1]` whose first four entries sum to 34, the
first cumulative sum to reach the threshold 27.5, so its N50 is 7. -/
theorem n50_worked_example :
    calculate_n50 [1, 2, 3, 4, 5, 6, 7, 8, 9, 10] = 7 ∧
      List.insertionSort (· ≥ ·) [1, 2, 3, 4, 5, 6, 7, 8, 9, 10] =
        [10, 9, 8, 7, 6, 5, 4, 3, 2, 1] ∧
      ([1, 2, 3, 4, 5, 6, 7, 8, 9, 10] : List Nat).sum = 55 ∧
      ([10, 9, 8, 7, 6, 5, 4, 3, 2, 1] : List Nat).take 4 = [10, 9, 8, 7] ∧
      ([10, 9, 8, 7] : List Nat).sum = 34 := by
  refine ⟨?_, by decide, by decide, by decide, by decide⟩
  rw [calculate_n50_eval]
  decide

/-- C3: a file whose read-length series is empty contributes no row to
the collected results (hence none to the CSV table) and a "No reads found"
diagnostic is logged instead, wherever it sits in the input list. -/
theorem empty_file_skipped (pre post : List FileOutcome) (f : String) :
    (runFiles (pre ++ (f, Except.ok []) :: post)).1 =
        (runFiles pre).1 ++ (runFiles post).1 ∧
      (runFiles (pre ++ (f, Except.ok []) :: post)).2 =
        (runFiles pre).2 ++ ("Processing " ++ f ++ "...") ::
          ("No reads found in " ++ f) :: (runFiles post).2 ∧
      csvTable (runFiles (pre ++ (f, Except.ok []) :: post)).1 =
        csvTable ((runFiles pre).1 ++ (runFiles post).1) := by
  have hmid : runFiles ((f, Except.ok []) :: post) =
      ((runFiles post).1, ("Processing " ++ f ++ "...") ::
        ("No reads found in " ++ f) :: (runFiles post).2) := by
    simp [runFiles, processLengths]
  rw [runFiles_append, hmid]
  exact ⟨rfl, rfl, rfl⟩

/-- C4: a failure while processing one file is caught there: it adds an
"Error processing" diagnostic, contributes no summary, and every summary
collected from the other files is still collected. -/
theorem file_failure_isolated (pre post : List FileOutcome) (f e : String) :
    (runFiles (pre ++ (f, Except.error e) :: post)).1 =
        (runFiles pre).1 ++ (runFiles post).1 ∧
      (runFiles (pre ++ (f, Except.error e) :: post)).2 =
        (runFiles pre).2 ++ ("Processing " ++ f ++ "...") ::
          ("Error processing " ++ f ++ ": " ++ e) :: (runFiles post).2 ∧
      ∀ fs, fs ∈ (runFiles pre).1 ∨ fs ∈ (runFiles post).1 →
        fs ∈ (runFiles (pre ++ (f, Except.error e) :: post)).1 := by
  have hmid : runFiles ((f, Except.error e) :: post) =
      ((runFiles post).1, ("Processing " ++ f ++ "...") ::
        ("Error processing " ++ f ++ ": " ++ e) :: (runFiles post).2) := by
    simp [runFiles]
  rw [runFiles_append, hmid]
  refine ⟨rfl, rfl, ?_⟩
  intro fs hfs
  exact List.mem_append.2 hfs

/-- C6: for a non-empty series of positive lengths some position of the
descending walk crosses the half-total threshold, so `calculate_n50`
returns the entry at such a position and never falls through to the
guarding `return 0` after the loop. -/
theorem fallback_unreachable (l : List Nat) (h : l ≠ [])
    (hpos : ∀ x ∈ l, 0 < x) :
    ∃ i, i < (l.insertionSort (· ≥ ·)).length ∧
      (((l.insertionSort (· ≥ ·)).sum : ℚ) / 2 ≤
        (((l.insertionSort (· ≥ ·)).take (i + 1)).sum : ℚ)) ∧
      calculate_n50 l = (l.insertionSort (· ≥ ·)).getD i 0 := by
  have he : ¬ l.isEmpty := by
    cases l with
    | nil => exact absurd rfl h
    | cons a t => simp
  exact calculate_n50_crossing l he

/-- Witness for C6 at the series `[3, 1]`. -/
theorem fallback_unreachable_witness :
    (([3, 1] : List Nat) ≠ [] ∧ ∀ x ∈ ([3, 1] : List Nat), 0 < x) ∧
      ∃ i, i < (([3, 1] : List Nat).insertionSort (· ≥ ·)).length ∧
        (((([3, 1] : List Nat).insertionSort (· ≥ ·)).sum : ℚ) / 2 ≤
          (((([3, 1] : List Nat).insertionSort (· ≥ ·)).take (i + 1)).sum : ℚ)) ∧
        calculate_n50 [3, 1] = (([3, 1] : List Nat).insertionSort (· ≥ ·)).getD i 0 :=
  ⟨⟨by decide, by decide⟩, fallback_unreachable [3, 1] (by decide) (by decide)⟩

/-- C8: the statistics pipeline is a deterministic function of its input:
two runs on the same file outcomes produce the same summaries and log. -/
theorem stats_deterministic (inputs₁ inputs₂ : List FileOutcome)
    (h : inputs₁ = inputs₂) : runFiles inputs₁ = runFiles inputs₂ := by
  rw [h]

/-- Witness for C8: two runs on one concrete input agree. -/
theorem stats_deterministic_witness :
    runFiles [("a.fastq", Except.ok [5, 3])] =
      runFiles [("a.fastq", Except.ok [5, 3])] :=
  stats_deterministic [("a.fastq", Except.ok [5, 3])]
    [("a.fastq", Except.ok [5, 3])] rfl

/-- C9: on a non-empty list, `calculate_n50` returns one of the list's
elements, so the result lies between the least and the greatest length. -/
theorem n50_mem_bounds (l : List Nat) (h : l ≠ []) :
    calculate_n50 l ∈ l ∧ pyMin l ≤ calculate_n50 l ∧
      calculate_n50 l ≤ pyMax l := by
  have he : ¬ l.isEmpty := by
    cases l with
    | nil => exact absurd rfl h
    | cons a t => simp
  obtain ⟨i, hi, _, heq⟩ := calculate_n50_crossing l he
  have hmem_s : calculate_n50 l ∈ l.insertionSort (· ≥ ·) := by
    rw [heq, List.getD_eq_getElem _ 0 hi]
    exact List.getElem_mem hi
  have hmem : calculate_n50 l ∈ l :=
    (List.perm_insertionSort (· ≥ ·) l).mem_iff.1 hmem_s
  exact ⟨hmem, pyMin_le_of_mem hmem, le_pyMax_of_mem hmem⟩

/-- Witness for C9 at the series `[5, 2, 9]`. -/
theorem n50_mem_bounds_witness :
    calculate_n50 [5, 2, 9] ∈ ([5, 2, 9] : List Nat) ∧
      pyMin [5, 2, 9] ≤ calculate_n50 [5, 2, 9] ∧
      calculate_n50 [5, 2, 9] ≤ pyMax [5, 2, 9] :=
  n50_mem_bounds [5, 2, 9] (by decide)

/-- C10: in `--file` mode the candidate list is exactly the given path and
`is_fastq_file` is never consulted (it is applied only in `--directory`
mode), so a path without a FASTQ extension, such as `reads.txt`, is still
processed. -/
theorem file_mode_no_filter :
    (∀ path, files_to_process (InputMode.file path) = [path]) ∧
      (∀ walked_files, files_to_process (InputMode.directory walked_files) =
        walked_files.filter (fun file => is_fastq_file file)) ∧
      is_fastq_file "reads.txt" = false ∧
      files_to_process (InputMode.file "reads.txt") = ["reads.txt"] :=
  ⟨fun _ => rfl, fun _ => rfl, by decide, rfl⟩

end OntN50
